import Mathlib

/-!
Verification of the function-ranking pipeline (rank_func.py, ml.py, verify.py)
as a shallow embedding in Lean 4.  Python floats are modelled by exact
rationals; Python strings by lists of characters; pandas data frames by
lists of records.
-/

namespace RankPipe

/-! ## Character and string helpers (Python semantics) -/

/-- Python whitespace characters (`str.strip`, ASCII range). -/
def isPyWs (c : Char) : Bool :=
  c = ' ' || c = '\t' || c = '\n' || c = '\x0d' || c = '\x0b' || c = '\x0c'

/-- Characters treated as line breaks by `str.splitlines` (ASCII range). -/
def isLineBreak (c : Char) : Bool :=
  c = '\n' || c = '\x0d' || c = '\x0b' || c = '\x0c'

/-- Python `str.strip()`: drop leading and trailing whitespace. -/
def stripChars (l : List Char) : List Char :=
  ((l.dropWhile isPyWs).reverse.dropWhile isPyWs).reverse

/-- Worker for `splitLines`: `acc` holds the current line reversed; a
`"\r\n"` pair counts as a single break. -/
def splitLinesAux : List Char → List Char → List (List Char)
  | acc, [] => if acc.isEmpty then [] else [acc.reverse]
  | acc, c :: rest =>
      if c = '\x0d' ∧ rest.head? = some '\n' then
        acc.reverse :: splitLinesAux [] rest.tail
      else if isLineBreak c then acc.reverse :: splitLinesAux [] rest
      else splitLinesAux (c :: acc) rest
  termination_by _ l => l.length
  decreasing_by
    · simp [List.length_tail]
      omega
    · simp
    · simp

/-- Python `str.splitlines()`: split on line-break characters, treating `"\r\n"` as
one break and producing no trailing empty line. -/
def splitLines (l : List Char) : List (List Char) :=
  splitLinesAux [] l

/-- Tests that `pat` occurs at the head of `text`. -/
def leadsWith : List Char → List Char → Bool
  | [], _ => true
  | _ :: _, [] => false
  | p :: ps, c :: cs => p = c && leadsWith ps cs

/-- Python `pat in text`: substring containment. -/
def hasSubstr (pat : List Char) : List Char → Bool
  | [] => pat.isEmpty
  | c :: cs => leadsWith pat (c :: cs) || hasSubstr pat cs

/-- Python `str.lower()` as a character map (ASCII). -/
def lowerChars (s : String) : List Char :=
  s.toList.map Char.toLower

/-! ## Feature extraction: text-derived fields (rank_func.py lines 90, 116) -/

/-- Field `loc`: count of non-blank physical lines of the code text. -/
def locOf (code : List Char) : Nat :=
  ((splitLines code).filter (fun ln => !(stripChars ln).isEmpty)).length

/-- Field `one_liner`: 1 iff `loc ≤ 3` and the stripped text spans ≤ 3 lines. -/
def oneLinerOf (code : List Char) : Nat :=
  if locOf code ≤ 3 ∧ (splitLines (stripChars code)).length ≤ 3 then 1 else 0

/-! ## The scored row (rank_func.py lines 120-138 plus normalized columns) -/

/-- One enriched CodeUnit row as consumed by the heuristic scorer: the raw
structural metrics plus the min-max normalized columns. -/
structure FeatRow where
  id : String
  label : String
  loc : Nat
  complexity : ℚ
  num_funcs : Nat
  num_params : Nat
  num_calls : Nat
  num_returns : Nat
  num_assigns : Nat
  num_imports : Nat
  doc_len : Nat
  keyword_matches : Nat
  one_liner : Nat
  has_type_annotations : Nat
  loc_norm : ℚ
  complexity_norm : ℚ
  num_funcs_norm : ℚ
  num_params_norm : ℚ
  num_calls_norm : ℚ
  num_returns_norm : ℚ
  num_assigns_norm : ℚ
  num_imports_norm : ℚ
  doc_len_norm : ℚ
  keyword_matches_norm : ℚ
  deriving DecidableEq, Repr

/-! ## Heuristic scorer (rank_func.py lines 161-210) -/

/-- Fixed heuristic weights (rank_func.py `weights` dict). -/
structure HWeights where
  loc_norm : ℚ
  complexity_norm : ℚ
  num_calls_norm : ℚ
  num_params_norm : ℚ
  keyword_matches_norm : ℚ
  doc_len_norm : ℚ
  num_imports_norm : ℚ

def weights : HWeights :=
  { loc_norm := 35/100
    complexity_norm := 20/100
    num_calls_norm := 5/100
    num_params_norm := 5/100
    keyword_matches_norm := 20/100
    doc_len_norm := 5/100
    num_imports_norm := 5/100 }

/-- Adjustment 1 guard (rank_func.py line 191): truthy `one_liner`,
`num_calls ≤ 1`, `complexity ≤ 2`. -/
def trivialBonus (r : FeatRow) : Prop :=
  r.one_liner ≠ 0 ∧ r.num_calls ≤ 1 ∧ r.complexity ≤ 2

instance (r : FeatRow) : Decidable (trivialBonus r) := by
  unfold trivialBonus; infer_instance

def critical_names : List String :=
  ["__init__", "decorator", "on_event", "setup", "configure", "mount"]

def critical_files : List String :=
  ["applications", "routing", "endpoints", "schemas", "models"]

/-- Adjustment 2 guard (rank_func.py line 201): critical name substring of
the lowercased label, or critical file substring of the lowercased id. -/
def criticalGuard (r : FeatRow) : Prop :=
  critical_names.any (fun k => hasSubstr k.toList (lowerChars r.label)) = true ∨
  critical_files.any (fun f => hasSubstr f.toList (lowerChars r.id)) = true

instance (r : FeatRow) : Decidable (criticalGuard r) := by
  unfold criticalGuard; infer_instance

/-- Adjustment 3 guard (rank_func.py line 206): truthy type annotations or
`doc_len > 80`. -/
def docTypeGuard (r : FeatRow) : Prop :=
  r.has_type_annotations ≠ 0 ∨ r.doc_len > 80

instance (r : FeatRow) : Decidable (docTypeGuard r) := by
  unfold docTypeGuard; infer_instance

/-- The heuristic triviality score (rank_func.py `compute_triviality`):
weighted sum of normalized metrics, three sequential guarded adjustments,
final clamp to `[0,1]`. -/
def compute_triviality (r : FeatRow) : ℚ :=
  let score :=
    weights.loc_norm * (1 - r.loc_norm) +
    weights.complexity_norm * (1 - r.complexity_norm) +
    weights.num_calls_norm * (1 - r.num_calls_norm) +
    weights.num_params_norm * (1 - r.num_params_norm) +
    weights.keyword_matches_norm * r.keyword_matches_norm +
    weights.doc_len_norm * (1 - r.doc_len_norm) +
    weights.num_imports_norm * (1 - r.num_imports_norm)
  let score := if trivialBonus r then min 1 (score + 10/100) else score
  let score := if criticalGuard r then max 0 (score - 15/100) else score
  let score := if docTypeGuard r then max 0 (score - 8/100) else score
  max 0 (min 1 score)

/-- Python `round(x, 4)` modelled over ℚ: round to the nearest multiple of
`1/10000` (tie-breaking differences with the float implementation do not
affect any property proved here). -/
def round4 (x : ℚ) : ℚ :=
  (round (x * 10000) : ℤ) / 10000

/-- The emitted `triviality` field (rank_func.py line 213). -/
def triviality (r : FeatRow) : ℚ :=
  round4 (compute_triviality r)

/-- The emitted `importance` field (rank_func.py line 214). -/
def importance (r : FeatRow) : ℚ :=
  round4 (1 - triviality r)

/-! Basic facts about the clamp and the rounding. -/

theorem compute_triviality_nonneg (r : FeatRow) : 0 ≤ compute_triviality r :=
  le_max_left 0 _

theorem compute_triviality_le_one (r : FeatRow) : compute_triviality r ≤ 1 := by
  unfold compute_triviality
  exact max_le (by norm_num) (min_le_left _ _)

theorem round_mono_q {x y : ℚ} (h : x ≤ y) : round x ≤ round y := by
  rw [round_eq, round_eq]
  exact Int.floor_mono (by linarith)

theorem round4_mem_unit {x : ℚ} (h0 : 0 ≤ x) (h1 : x ≤ 1) :
    0 ≤ round4 x ∧ round4 x ≤ 1 := by
  unfold round4
  constructor
  · have : (0 : ℤ) ≤ round (x * 10000) := by
      have := round_mono_q (x := 0) (y := x * 10000) (by nlinarith)
      simp at this
      exact this
    positivity
  · have h : round (x * 10000) ≤ round ((10000 : ℚ)) := by
      apply round_mono_q; nlinarith
    have h' : round ((10000 : ℚ)) = 10000 := by
      rw [show ((10000 : ℚ)) = ((10000 : ℤ) : ℚ) by norm_num, round_intCast]
    rw [h'] at h
    rw [div_le_one (by norm_num)]
    exact_mod_cast h

theorem round4_int_mul (m : ℤ) : round4 ((m : ℚ) / 10000) = (m : ℚ) / 10000 := by
  unfold round4
  rw [div_mul_cancel₀ _ (by norm_num : (10000 : ℚ) ≠ 0)]
  rw [round_intCast]

/-- C1: for every emitted row, `triviality ∈ [0,1]`, `importance ∈ [0,1]`,
and `triviality + importance = 1` exactly (the rounded complement is exact
because `triviality` is already a multiple of `1/10000`). -/
theorem triviality_importance_invariant (r : FeatRow) :
    0 ≤ triviality r ∧ triviality r ≤ 1 ∧
    0 ≤ importance r ∧ importance r ≤ 1 ∧
    triviality r + importance r = 1 := by
  have hb := round4_mem_unit (compute_triviality_nonneg r) (compute_triviality_le_one r)
  have ht : triviality r = ((round (compute_triviality r * 10000) : ℤ) : ℚ) / 10000 := rfl
  have himp : importance r = 1 - triviality r := by
    unfold importance
    rw [ht]
    have : (1 : ℚ) - ((round (compute_triviality r * 10000) : ℤ) : ℚ) / 10000 =
        (((10000 - round (compute_triviality r * 10000) : ℤ) : ℚ)) / 10000 := by
      push_cast
      ring
    rw [this, round4_int_mul]
  refine ⟨hb.1, hb.2, ?_, ?_, ?_⟩
  · rw [himp]; unfold triviality at hb ⊢; linarith [hb.2]
  · rw [himp]; unfold triviality at hb ⊢; linarith [hb.1]
  · rw [himp]; ring

/-! ## C4: what the scorer actually depends on -/

/-- A row with every numeric field zero, used as a template. -/
def zeroRow : FeatRow :=
  { id := "m", label := "helper", loc := 0, complexity := 0, num_funcs := 0
    num_params := 0, num_calls := 0, num_returns := 0, num_assigns := 0
    num_imports := 0, doc_len := 0, keyword_matches := 0, one_liner := 0
    has_type_annotations := 0, loc_norm := 0, complexity_norm := 0
    num_funcs_norm := 0, num_params_norm := 0, num_calls_norm := 0
    num_returns_norm := 0, num_assigns_norm := 0, num_imports_norm := 0
    doc_len_norm := 0, keyword_matches_norm := 0 }

/-- Same normalized metrics as `zeroRow`, but a label from the critical-name
vocabulary. -/
def setupRow : FeatRow :=
  { zeroRow with label := "setup" }

/-- The ten normalized metric columns agree between two rows. -/
def normMetricsEq (r s : FeatRow) : Prop :=
  r.loc_norm = s.loc_norm ∧ r.complexity_norm = s.complexity_norm ∧
  r.num_funcs_norm = s.num_funcs_norm ∧ r.num_params_norm = s.num_params_norm ∧
  r.num_calls_norm = s.num_calls_norm ∧ r.num_returns_norm = s.num_returns_norm ∧
  r.num_assigns_norm = s.num_assigns_norm ∧ r.num_imports_norm = s.num_imports_norm ∧
  r.doc_len_norm = s.doc_len_norm ∧ r.keyword_matches_norm = s.keyword_matches_norm

theorem compute_triviality_zeroRow : compute_triviality zeroRow = 3/4 := by
  have h1 : ¬ trivialBonus zeroRow := by decide
  have h2 : ¬ criticalGuard zeroRow := by decide
  have h3 : ¬ docTypeGuard zeroRow := by decide
  simp only [compute_triviality]
  rw [if_neg h1, if_neg h2, if_neg h3]
  norm_num [weights, zeroRow, min_def, max_def]

theorem compute_triviality_setupRow : compute_triviality setupRow = 3/5 := by
  have h1 : ¬ trivialBonus setupRow := by decide
  have h2 : criticalGuard setupRow := by decide
  have h3 : ¬ docTypeGuard setupRow := by decide
  simp only [compute_triviality]
  rw [if_neg h1, if_pos h2, if_neg h3]
  norm_num [weights, setupRow, zeroRow, min_def, max_def]

/-- C4 counterexample: two rows with identical normalized metric values but
different labels get different triviality scores (the critical-name
adjustment reads the label, which is not a normalized metric). -/
theorem scorer_not_determined_by_norms :
    normMetricsEq zeroRow setupRow ∧
    compute_triviality zeroRow ≠ compute_triviality setupRow := by
  constructor
  · exact ⟨rfl, rfl, rfl, rfl, rfl, rfl, rfl, rfl, rfl, rfl⟩
  · rw [compute_triviality_zeroRow, compute_triviality_setupRow]
    norm_num

/-- C4 (amended): the scorer is a pure function of the fields it reads —
the seven weighted normalized metrics together with `one_liner`,
`num_calls`, `complexity`, `label`, `id`, `has_type_annotations` and
`doc_len`; two rows agreeing on all of these score identically (and in
particular repeated evaluation of the same row is deterministic). -/
theorem scorer_congruence (r s : FeatRow)
    (h1 : r.loc_norm = s.loc_norm) (h2 : r.complexity_norm = s.complexity_norm)
    (h3 : r.num_calls_norm = s.num_calls_norm)
    (h4 : r.num_params_norm = s.num_params_norm)
    (h5 : r.keyword_matches_norm = s.keyword_matches_norm)
    (h6 : r.doc_len_norm = s.doc_len_norm)
    (h7 : r.num_imports_norm = s.num_imports_norm)
    (h8 : r.one_liner = s.one_liner) (h9 : r.num_calls = s.num_calls)
    (h10 : r.complexity = s.complexity) (h11 : r.label = s.label)
    (h12 : r.id = s.id)
    (h13 : r.has_type_annotations = s.has_type_annotations)
    (h14 : r.doc_len = s.doc_len) :
    compute_triviality r = compute_triviality s := by
  cases r
  cases s
  simp only at h1 h2 h3 h4 h5 h6 h7 h8 h9 h10 h11 h12 h13 h14
  subst h1 h2 h3 h4 h5 h6 h7 h8 h9 h10 h11 h12 h13 h14
  rfl

/-- Concrete instantiation of `scorer_congruence`: two rows that differ only
in a metric the scorer never reads (`num_returns_norm`). -/
theorem scorer_congruence_witness :
    compute_triviality zeroRow =
      compute_triviality { zeroRow with num_returns_norm := 1/2 } :=
  scorer_congruence _ _ rfl rfl rfl rfl rfl rfl rfl rfl rfl rfl rfl rfl rfl rfl

/-! ## C7: the `has_type_annotations` flag (rank_func.py line 117) -/

/-- Regex `\w` (ASCII range): letter, digit or underscore. -/
def isWordChar (c : Char) : Bool :=
  c.isAlpha || c.isDigit || c = '_'

/-- After a colon: skip `\s*`, then require a `\w` character. -/
def wsThenWord (cs : List Char) : Bool :=
  match cs.dropWhile isPyWs with
  | [] => false
  | c :: _ => isWordChar c

/-- Python `re.search(":\s*\w", code)` succeeds: some colon is followed by
optional whitespace and then a word character. -/
def colonWsWord : List Char → Bool
  | [] => false
  | c :: cs => (c = ':' && wsThenWord cs) || colonWsWord cs

/-- rank_func.py line 117: the extracted `has_type_annotations` flag. -/
def has_type_annotations_of (code : List Char) : Nat :=
  if (hasSubstr [':'] code && hasSubstr ['-', '>'] code) ||
      (hasSubstr [':'] code && colonWsWord code) then 1 else 0

/-- A colon immediately followed by a word character occurs in the text. -/
def colonImmediateWord : List Char → Bool
  | [] => false
  | [_] => false
  | c :: d :: cs => (c = ':' && isWordChar d) || colonImmediateWord (d :: cs)

/-- Modelled from the words of the spec (for comparison with the code's
definition): true iff the text contains both a colon and an arrow token, or
a colon immediately followed by a word character. -/
def spec_has_type_annotations (code : List Char) : Bool :=
  (hasSubstr [':'] code && hasSubstr ['-', '>'] code) || colonImmediateWord code

/-- Holds when `pat` occurs as a contiguous substring of `s`. -/
def IsSubstrOf (pat s : List Char) : Prop :=
  ∃ a b, s = a ++ pat ++ b

/-- Declarative reading of the regex `:\s*\w`. -/
def ColonWsWordProp (s : List Char) : Prop :=
  ∃ a w c b, s = a ++ ':' :: (w ++ c :: b) ∧
    (∀ x ∈ w, isPyWs x = true) ∧ isWordChar c = true

theorem leadsWith_iff (pat : List Char) :
    ∀ s : List Char, leadsWith pat s = true ↔ ∃ b, s = pat ++ b := by
  induction pat with
  | nil =>
      intro s
      simp [leadsWith]
  | cons p ps ih =>
      intro s
      cases s with
      | nil => simp [leadsWith]
      | cons c cs =>
          simp only [leadsWith, Bool.and_eq_true, decide_eq_true_eq, ih cs]
          constructor
          · rintro ⟨rfl, b, rfl⟩
            exact ⟨b, rfl⟩
          · rintro ⟨b, hb⟩
            rw [List.cons_append] at hb
            injection hb with h1 h2
            exact ⟨h1.symm, b, h2⟩

theorem hasSubstr_iff (pat : List Char) :
    ∀ s : List Char, hasSubstr pat s = true ↔ IsSubstrOf pat s := by
  intro s
  induction s with
  | nil =>
      simp only [hasSubstr, List.isEmpty_iff, IsSubstrOf]
      constructor
      · rintro rfl
        exact ⟨[], [], rfl⟩
      · rintro ⟨a, b, hab⟩
        rcases List.append_eq_nil.mp hab.symm with ⟨h1, h2⟩
        exact (List.append_eq_nil.mp h1).2
  | cons c cs ih =>
      simp only [hasSubstr, Bool.or_eq_true, leadsWith_iff, ih, IsSubstrOf]
      constructor
      · rintro (⟨b, hb⟩ | ⟨a, b, hab⟩)
        · exact ⟨[], b, by simp [hb]⟩
        · exact ⟨c :: a, b, by simp [hab]⟩
      · rintro ⟨a, b, hab⟩
        cases a with
        | nil =>
            left
            exact ⟨b, by simpa using hab⟩
        | cons x xs =>
            right
            rw [List.cons_append, List.cons_append] at hab
            injection hab with h1 h2
            exact ⟨xs, b, h2⟩

theorem wordChar_not_ws {c : Char} (h : isWordChar c = true) : isPyWs c = false := by
  by_contra hne
  rw [Bool.not_eq_false] at hne
  simp only [isPyWs, Bool.or_eq_true, decide_eq_true_eq] at hne
  rcases hne with ((((h1 | h1) | h1) | h1) | h1) | h1 <;> subst h1 <;>
    simp [isWordChar] at h

theorem dropWhile_all_append {p : Char → Bool} {w t : List Char}
    (h : ∀ x ∈ w, p x = true) : (w ++ t).dropWhile p = t.dropWhile p := by
  induction w with
  | nil => rfl
  | cons x xs ih =>
      simp only [List.cons_append, List.dropWhile_cons]
      rw [h x (by simp)]
      simp only [if_true]
      exact ih (fun y hy => h y (by simp [hy]))

theorem wsThenWord_iff (cs : List Char) :
    wsThenWord cs = true ↔
      ∃ w c b, cs = w ++ c :: b ∧ (∀ x ∈ w, isPyWs x = true) ∧
        isWordChar c = true := by
  constructor
  · intro h
    unfold wsThenWord at h
    cases hd : cs.dropWhile isPyWs with
    | nil => rw [hd] at h; exact absurd h (by simp)
    | cons c rest =>
        rw [hd] at h
        refine ⟨cs.takeWhile isPyWs, c, rest, ?_, ?_, h⟩
        · rw [← hd, List.takeWhile_append_dropWhile]
        · exact fun x hx => List.mem_takeWhile_imp hx
  · rintro ⟨w, c, b, rfl, hws, hword⟩
    unfold wsThenWord
    rw [dropWhile_all_append hws, List.dropWhile_cons, wordChar_not_ws hword]
    simpa using hword

theorem colonWsWord_iff (s : List Char) :
    colonWsWord s = true ↔ ColonWsWordProp s := by
  induction s with
  | nil =>
      simp only [colonWsWord, ColonWsWordProp]
      constructor
      · intro h; exact absurd h (by simp)
      · rintro ⟨a, w, c, b, hab, -, -⟩
        exact absurd hab (by simp)
  | cons x xs ih =>
      simp only [colonWsWord, Bool.or_eq_true, Bool.and_eq_true,
        decide_eq_true_eq, wsThenWord_iff, ih, ColonWsWordProp]
      constructor
      · rintro (⟨rfl, w, c, b, rfl, hws, hword⟩ | ⟨a, w, c, b, rfl, hws, hword⟩)
        · exact ⟨[], w, c, b, rfl, hws, hword⟩
        · exact ⟨x :: a, w, c, b, rfl, hws, hword⟩
      · rintro ⟨a, w, c, b, hab, hws, hword⟩
        cases a with
        | nil =>
            rw [List.nil_append] at hab
            injection hab with h1 h2
            exact Or.inl ⟨h1, w, c, b, h2, hws, hword⟩
        | cons y ys =>
            rw [List.cons_append] at hab
            injection hab with h1 h2
            exact Or.inr ⟨ys, w, c, b, h2, hws, hword⟩

theorem colon_mem_of_colonWsWord {s : List Char} (h : colonWsWord s = true) :
    hasSubstr [':'] s = true := by
  rcases (colonWsWord_iff s).mp h with ⟨a, w, c, b, rfl, -, -⟩
  rw [hasSubstr_iff]
  exact ⟨a, w ++ c :: b, by simp⟩

/-- C7 counterexample: on the text `": x"` the code sets the flag (the regex
`:\s*\w` lets whitespace separate the colon from the word character), while
the condition of the claim — arrow present, or colon *immediately* followed by a
word character — is false. -/
theorem hta_flag_ne_spec :
    has_type_annotations_of (": x".toList) = 1 ∧
    spec_has_type_annotations (": x".toList) = false := by
  constructor <;> decide

/-- C7 (amended): the extracted flag is 1 iff the text contains both a colon
and an arrow token, or a colon followed by zero or more whitespace
characters and then a word character. -/
theorem hta_flag_characterization (code : List Char) :
    has_type_annotations_of code = 1 ↔
      (IsSubstrOf [':'] code ∧ IsSubstrOf ['-', '>'] code) ∨
        ColonWsWordProp code := by
  unfold has_type_annotations_of
  split
  next h =>
    simp only [true_iff, eq_self_iff_true]
    rcases Bool.or_eq_true_iff.mp h with h' | h'
    · rcases Bool.and_eq_true_iff.mp h' with ⟨hc, ha⟩
      exact Or.inl ⟨(hasSubstr_iff _ _).mp hc, (hasSubstr_iff _ _).mp ha⟩
    · rcases Bool.and_eq_true_iff.mp h' with ⟨-, hr⟩
      exact Or.inr ((colonWsWord_iff _).mp hr)
  next h =>
    rw [Bool.or_eq_true_iff, not_or] at h
    obtain ⟨h1, h2⟩ := h
    constructor
    · intro h0; exact absurd h0 (by norm_num)
    · rintro (⟨hc, ha⟩ | hr)
      · exact absurd (Bool.and_eq_true_iff.mpr
          ⟨(hasSubstr_iff _ _).mpr hc, (hasSubstr_iff _ _).mpr ha⟩) h1
      · have hb := (colonWsWord_iff _).mpr hr
        exact absurd (Bool.and_eq_true_iff.mpr
          ⟨colon_mem_of_colonWsWord hb, hb⟩) h2

/-! ## Sorting (pandas `sort_values` modelled as a comparison sort) -/

/-- Model of `sort_values(key, ascending=False)`. -/
def sortDescBy {α : Type} (f : α → ℚ) (l : List α) : List α :=
  l.mergeSort (fun a b => decide (f b ≤ f a))

/-- Model of `sort_values(key)` (ascending). -/
def sortAscBy {α : Type} (f : α → ℚ) (l : List α) : List α :=
  l.mergeSort (fun a b => decide (f a ≤ f b))

theorem sortDescBy_perm {α : Type} (f : α → ℚ) (l : List α) :
    (sortDescBy f l).Perm l :=
  List.mergeSort_perm l _

theorem sortAscBy_perm {α : Type} (f : α → ℚ) (l : List α) :
    (sortAscBy f l).Perm l :=
  List.mergeSort_perm l _

theorem sortDescBy_pairwise {α : Type} (f : α → ℚ) (l : List α) :
    (sortDescBy f l).Pairwise (fun a b => f b ≤ f a) := by
  have h := @List.sorted_mergeSort α (fun a b : α => decide (f b ≤ f a))
    (fun a b c hab hbc => by
      simp only [decide_eq_true_eq] at *
      exact le_trans hbc hab)
    (fun a b => by
      simp only [Bool.or_eq_true, decide_eq_true_eq]
      exact le_total (f b) (f a))
    l
  exact h.imp (fun hab => by simpa using hab)

theorem sortAscBy_pairwise {α : Type} (f : α → ℚ) (l : List α) :
    (sortAscBy f l).Pairwise (fun a b => f a ≤ f b) := by
  have h := @List.sorted_mergeSort α (fun a b : α => decide (f a ≤ f b))
    (fun a b c hab hbc => by
      simp only [decide_eq_true_eq] at *
      exact le_trans hab hbc)
    (fun a b => by
      simp only [Bool.or_eq_true, decide_eq_true_eq]
      exact le_total (f a) (f b))
    l
  exact h.imp (fun hab => by simpa using hab)

/-! ## Score combiner (ml.py `train_and_evaluate`, lines 104-121) -/

/-- One prediction row as consumed by the combiner: the learned probability
plus the heuristic importance when that column is present. -/
structure MLRow where
  id : String
  importance : Option ℚ
  model_prob_core : ℚ
  deriving DecidableEq, Repr

/-- ml.py lines 111-117: `0.4 × importance + 0.6 × model_prob_core` when the
importance column is present, else `model_prob_core`. -/
def combined_score (imp : Option ℚ) (p : ℚ) : ℚ :=
  match imp with
  | some i => 4/10 * i + 6/10 * p
  | none => p

def mlKey (r : MLRow) : ℚ :=
  combined_score r.importance r.model_prob_core

/-- ml.py line 120: the prediction table sorted descending by
`combined_score`. -/
def train_output_order (rows : List MLRow) : List MLRow :=
  sortDescBy mlKey rows

/-- C2: the combiner equals `0.4·importance + 0.6·model_prob_core` when
importance is present and `model_prob_core` otherwise; it is strictly
between the two inputs when they differ and equals them when equal; and the
final output is a permutation of the input sorted descending by
`combined_score`. -/
theorem combined_score_spec :
    (∀ i p : ℚ, combined_score (some i) p = 4/10 * i + 6/10 * p) ∧
    (∀ p : ℚ, combined_score none p = p) ∧
    (∀ i p : ℚ, i = p → combined_score (some i) p = p) ∧
    (∀ i p : ℚ, i ≠ p →
      min i p < combined_score (some i) p ∧ combined_score (some i) p < max i p) ∧
    (∀ rows : List MLRow,
      (train_output_order rows).Pairwise (fun a b => mlKey b ≤ mlKey a) ∧
      (train_output_order rows).Perm rows) := by
  refine ⟨fun i p => rfl, fun p => rfl, ?_, ?_, ?_⟩
  · intro i p h
    subst h
    simp only [combined_score]
    ring
  · intro i p h
    rcases lt_or_gt_of_ne h with h' | h'
    · rw [min_eq_left h'.le, max_eq_right h'.le]
      simp only [combined_score]
      constructor <;> nlinarith
    · rw [min_eq_right h'.le, max_eq_left h'.le]
      simp only [combined_score]
      constructor <;> nlinarith
  · intro rows
    exact ⟨sortDescBy_pairwise mlKey rows, sortDescBy_perm mlKey rows⟩

/-- Concrete instantiation of `combined_score_spec`: for
`importance = 0` and `model_prob_core = 1` the combined score `6/10` lies
strictly between them. -/
theorem combined_score_spec_witness :
    (0 : ℚ) ≠ 1 ∧
    min (0 : ℚ) 1 < combined_score (some 0) 1 ∧
    combined_score (some 0) 1 < max (0 : ℚ) 1 :=
  ⟨by norm_num, combined_score_spec.2.2.2.1 0 1 (by norm_num)⟩

/-! ## Label-candidate sampler (ml.py `prepare_label_candidates`, lines 28-47)

Rows are projected to the two fields the selection logic of the sampler reads:
`id` (dedup key) and `importance` (sort key). -/

structure SRow where
  id : String
  importance : ℚ
  deriving DecidableEq, Repr

/-- Model of `df.head(n)` for a non-negative count. -/
def pyHead {α : Type} (n : Nat) (l : List α) : List α :=
  l.take n

/-- Model of `df.tail(n)` for a non-negative count. -/
def pyTail {α : Type} (n : Nat) (l : List α) : List α :=
  l.drop (l.length - n)

/-- Model of `df.iloc[:n]` with Python slice semantics: a negative bound counts from
the end. -/
def ilocTake {α : Type} (l : List α) (n : Int) : List α :=
  if 0 ≤ n then l.take n.toNat else l.take (l.length - (-n).toNat)

/-- Model of `Series.median()`: middle element of the sorted values, or the mean of
the two middle elements for an even count. -/
def pyMedian (l : List ℚ) : ℚ :=
  let s := l.mergeSort (fun a b => decide (a ≤ b))
  if l.length = 0 then 0
  else if l.length % 2 = 1 then s.getD (l.length / 2) 0
  else (s.getD (l.length / 2 - 1) 0 + s.getD (l.length / 2) 0) / 2

/-- Model of `drop_duplicates(subset=["id"])`: keep the first row bearing each id. -/
def dedupById (seen : List String) : List SRow → List SRow
  | [] => []
  | r :: rs =>
      if r.id ∈ seen then dedupById seen rs
      else r :: dedupById (r.id :: seen) rs

/-- ml.py line 29: the frame sorted by importance, descending. -/
def samplerSorted (df : List SRow) : List SRow :=
  sortDescBy (fun r => r.importance) df

/-- ml.py lines 33-35: the rows nearest the median importance, selected by
an ascending distance sort and an `iloc[:n_mid]` slice. -/
def samplerMid (df : List SRow) (n_mid : Int) : List SRow :=
  let median_imp := pyMedian ((samplerSorted df).map (fun r => r.importance))
  ilocTake
    (sortAscBy (fun r => |r.importance - median_imp|) (samplerSorted df)) n_mid

/-- ml.py line 36, inside `pd.concat`: top block, then mid, then bottom. -/
def samplerConcat (df : List SRow) (n_top n_bottom : Nat) (n_mid : Int) :
    List SRow :=
  pyHead n_top (samplerSorted df) ++ samplerMid df n_mid ++
    pyTail n_bottom (samplerSorted df)

/-- ml.py lines 28-36: the emitted candidate rows (the concatenation of the
three blocks, deduplicated by id keeping first occurrences). -/
def prepare_label_candidates (df : List SRow) (n_top n_bottom : Nat)
    (n_mid : Int) : List SRow :=
  dedupById [] (samplerConcat df n_top n_bottom n_mid)

/-- ml.py lines 139-142: the `--prepare-labels` command invokes the sampler
with `n_top=50`, `n_bottom=50`, `n_mid = candidates - 100`. -/
def mlMainPrepare (candidates : Int) (df : List SRow) : List SRow :=
  prepare_label_candidates df 50 50 (candidates - 100)

/-! Facts about `dedupById`. -/

theorem dedupById_subset {seen : List String} :
    ∀ {l : List SRow} {r : SRow}, r ∈ dedupById seen l → r ∈ l := by
  intro l
  induction l generalizing seen with
  | nil => intro r h; exact absurd h (by simp [dedupById])
  | cons x xs ih =>
      intro r h
      by_cases hx : x.id ∈ seen
      · rw [dedupById, if_pos hx] at h
        exact List.mem_cons_of_mem x (ih h)
      · rw [dedupById, if_neg hx] at h
        rcases List.mem_cons.mp h with rfl | h'
        · exact List.mem_cons_self _ _
        · exact List.mem_cons_of_mem x (ih h')

theorem dedupById_id_not_seen {seen : List String} :
    ∀ {l : List SRow} {r : SRow}, r ∈ dedupById seen l → r.id ∉ seen := by
  intro l
  induction l generalizing seen with
  | nil => intro r h; exact absurd h (by simp [dedupById])
  | cons x xs ih =>
      intro r h
      by_cases hx : x.id ∈ seen
      · rw [dedupById, if_pos hx] at h
        exact ih h
      · rw [dedupById, if_neg hx] at h
        rcases List.mem_cons.mp h with rfl | h'
        · exact hx
        · intro hmem
          exact ih h' (List.mem_cons_of_mem _ hmem)

theorem dedupById_find? {seen : List String} :
    ∀ {l : List SRow} {r : SRow}, r ∈ dedupById seen l →
      l.find? (fun s => s.id == r.id) = some r := by
  intro l
  induction l generalizing seen with
  | nil => intro r h; exact absurd h (by simp [dedupById])
  | cons x xs ih =>
      intro r h
      by_cases hx : x.id ∈ seen
      · rw [dedupById, if_pos hx] at h
        have hne : x.id ≠ r.id := by
          intro he
          exact (dedupById_id_not_seen h) (he ▸ hx)
        rw [List.find?_cons_of_neg _ (by simpa using hne)]
        exact ih h
      · rw [dedupById, if_neg hx] at h
        rcases List.mem_cons.mp h with rfl | h'
        · rw [List.find?_cons_of_pos _ (by simp)]
        · have hne : x.id ≠ r.id := by
            intro he
            exact (dedupById_id_not_seen h') (he ▸ List.mem_cons_self _ _)
          rw [List.find?_cons_of_neg _ (by simpa using hne)]
          exact ih h'

theorem dedupById_length {seen : List String} :
    ∀ {l : List SRow}, (dedupById seen l).length ≤ l.length := by
  intro l
  induction l generalizing seen with
  | nil => simp [dedupById]
  | cons x xs ih =>
      by_cases hx : x.id ∈ seen
      · rw [dedupById, if_pos hx]
        exact le_trans ih (by simp)
      · rw [dedupById, if_neg hx]
        simpa using ih

theorem dedupById_mem_id {seen : List String} :
    ∀ {l : List SRow} {r : SRow}, r ∈ l → r.id ∉ seen →
      ∃ c ∈ dedupById seen l, c.id = r.id := by
  intro l
  induction l generalizing seen with
  | nil => intro r h; exact absurd h (by simp)
  | cons x xs ih =>
      intro r h hseen
      by_cases hx : x.id ∈ seen
      · rw [dedupById, if_pos hx]
        rcases List.mem_cons.mp h with rfl | h'
        · exact absurd hx hseen
        · exact ih h' hseen
      · rw [dedupById, if_neg hx]
        by_cases hid : r.id = x.id
        · exact ⟨x, List.mem_cons_self _ _, hid.symm⟩
        · rcases List.mem_cons.mp h with rfl | h'
          · exact absurd rfl hid
          · obtain ⟨c, hc, hcid⟩ := ih h' (by
              intro hmem
              rcases List.mem_cons.mp hmem with he | he
              · exact hid he
              · exact hseen he)
            exact ⟨c, List.mem_cons_of_mem x hc, hcid⟩

/-! Facts about sorted lists: the head is a maximum, the last a minimum. -/

theorem getLast_mem_drop {α : Type} :
    ∀ (l : List α) (hne : l ≠ []) (k : Nat), k < l.length →
      l.getLast hne ∈ l.drop k := by
  intro l
  induction l with
  | nil => intro hne; exact absurd rfl hne
  | cons x t ih =>
      intro hne k hk
      cases k with
      | zero => exact List.getLast_mem hne
      | succ j =>
          simp only [List.length_cons, Nat.succ_lt_succ_iff] at hk
          have ht : t ≠ [] := by
            intro he
            rw [he] at hk
            exact absurd hk (by simp)
          rw [List.drop_succ_cons, List.getLast_cons ht]
          exact ih ht j hk

theorem pairwise_desc_getLast_min {α : Type} (f : α → ℚ) :
    ∀ (l : List α) (hne : l ≠ []),
      l.Pairwise (fun a b => f b ≤ f a) →
      ∀ y ∈ l, f (l.getLast hne) ≤ f y := by
  intro l
  induction l with
  | nil => intro hne; exact absurd rfl hne
  | cons x t ih =>
      intro hne hp y hy
      rcases List.pairwise_cons.mp hp with ⟨hx, hp'⟩
      by_cases ht : t = []
      · subst ht
        simp only [List.mem_singleton] at hy
        subst hy
        exact le_rfl
      · rw [List.getLast_cons ht]
        rcases List.mem_cons.mp hy with rfl | hy'
        · exact hx _ (List.getLast_mem ht)
        · exact ih ht hp' y hy'

/-- C9: the sampler called with `(n_top=2, n_bottom=2, n_mid=2)` on 10 rows
of pairwise distinct importance emits a table that contains the
highest-importance row and (by id) the lowest-importance row, has at most 6
unique ids, and deduplicates by id keeping the first occurrence in the
order top ++ mid ++ bottom (precedence top > mid > bottom). -/
theorem sampler_scenario_d (rows : List SRow)
    (hlen : rows.length = 10)
    (_hdist : (rows.map (fun r => r.importance)).Pairwise (fun a b => a ≠ b)) :
    (∃ c, c ∈ prepare_label_candidates rows 2 2 2 ∧ c ∈ rows ∧
        ∀ s ∈ rows, s.importance ≤ c.importance) ∧
    (∃ m c, m ∈ rows ∧ (∀ s ∈ rows, m.importance ≤ s.importance) ∧
        c ∈ prepare_label_candidates rows 2 2 2 ∧ c.id = m.id) ∧
    ((prepare_label_candidates rows 2 2 2).map (fun r => r.id)).dedup.length ≤ 6 ∧
    (∀ r ∈ prepare_label_candidates rows 2 2 2,
        (samplerConcat rows 2 2 2).find? (fun s => s.id == r.id) = some r) := by
  have hperm : (samplerSorted rows).Perm rows := sortDescBy_perm _ rows
  have hLlen : (samplerSorted rows).length = 10 := by
    rw [hperm.length_eq, hlen]
  have hLne : samplerSorted rows ≠ [] := by
    intro h
    rw [h] at hLlen
    exact absurd hLlen (by simp)
  have hpw : (samplerSorted rows).Pairwise
      (fun a b => b.importance ≤ a.importance) :=
    sortDescBy_pairwise _ rows
  refine ⟨?_, ?_, ?_, ?_⟩
  · -- the highest-importance row is emitted
    obtain ⟨x, t, hxt⟩ : ∃ x t, samplerSorted rows = x :: t := by
      cases hc : samplerSorted rows with
      | nil => exact absurd hc hLne
      | cons x t => exact ⟨x, t, rfl⟩
    have hconcat : samplerConcat rows 2 2 2 =
        x :: (List.take 1 t ++ samplerMid rows 2 ++
          pyTail 2 (samplerSorted rows)) := by
      simp [samplerConcat, pyHead, hxt]
    have hprep : prepare_label_candidates rows 2 2 2 =
        x :: dedupById [x.id] (List.take 1 t ++ samplerMid rows 2 ++
          pyTail 2 (samplerSorted rows)) := by
      rw [prepare_label_candidates, hconcat]
      simp [dedupById]
    refine ⟨x, ?_, ?_, ?_⟩
    · rw [hprep]; exact List.mem_cons_self _ _
    · exact hperm.mem_iff.mp (hxt ▸ List.mem_cons_self x t)
    · intro s hs
      have hsL : s ∈ samplerSorted rows := hperm.mem_iff.mpr hs
      rw [hxt] at hsL hpw
      rcases List.mem_cons.mp hsL with rfl | hs'
      · exact le_rfl
      · exact (List.pairwise_cons.mp hpw).1 s hs'
  · -- the lowest-importance row is emitted (by id)
    refine ⟨(samplerSorted rows).getLast hLne, ?_⟩
    have hmem : (samplerSorted rows).getLast hLne ∈ pyTail 2 (samplerSorted rows) := by
      unfold pyTail
      exact getLast_mem_drop _ hLne _ (by omega)
    have hcc : (samplerSorted rows).getLast hLne ∈ samplerConcat rows 2 2 2 := by
      unfold samplerConcat
      exact List.mem_append.mpr (Or.inr hmem)
    obtain ⟨c, hc, hcid⟩ :=
      @dedupById_mem_id [] _ _ hcc (by simp)
    refine ⟨c, hperm.mem_iff.mp (List.getLast_mem hLne), ?_, hc, hcid⟩
    intro s hs
    exact pairwise_desc_getLast_min (fun r => r.importance) _ hLne hpw s
      (hperm.mem_iff.mpr hs)
  · -- at most 6 unique ids
    have hc : (samplerConcat rows 2 2 2).length ≤ 6 := by
      unfold samplerConcat samplerMid pyHead pyTail ilocTake
      simp only [List.length_append]
      have h1 : (List.take 2 (samplerSorted rows)).length ≤ 2 := by
        rw [List.length_take]; omega
      have h2 : ((samplerSorted rows).drop
          ((samplerSorted rows).length - 2)).length ≤ 2 := by
        rw [List.length_drop]; omega
      have h3 : ∀ (l : List SRow),
          (if (0:Int) ≤ 2 then l.take ((2:Int)).toNat
            else l.take (l.length - ((-(2:Int))).toNat)).length ≤ 2 := by
        intro l
        rw [if_pos (by norm_num)]
        rw [List.length_take]
        omega
      have := h3 (sortAscBy
        (fun r => |r.importance -
          pyMedian ((samplerSorted rows).map (fun r => r.importance))|)
        (samplerSorted rows))
      omega
    have hlen' : (prepare_label_candidates rows 2 2 2).length ≤ 6 :=
      le_trans dedupById_length hc
    calc ((prepare_label_candidates rows 2 2 2).map (fun r => r.id)).dedup.length
        ≤ ((prepare_label_candidates rows 2 2 2).map (fun r => r.id)).length :=
          (List.dedup_sublist _).length_le
      _ = (prepare_label_candidates rows 2 2 2).length := List.length_map _ _
      _ ≤ 6 := hlen'
  · -- dedup keeps the first occurrence in top ++ mid ++ bottom order
    intro r hr
    exact dedupById_find? hr

/-- Ten rows with distinct importances, used to instantiate the sampler
theorems. -/
def rows10 : List SRow :=
  [⟨"f0", 0⟩, ⟨"f1", 1⟩, ⟨"f2", 2⟩, ⟨"f3", 3⟩, ⟨"f4", 4⟩,
   ⟨"f5", 5⟩, ⟨"f6", 6⟩, ⟨"f7", 7⟩, ⟨"f8", 8⟩, ⟨"f9", 9⟩]

/-- Concrete instantiation of `sampler_scenario_d` on `rows10`. -/
theorem sampler_scenario_d_witness :
    rows10.length = 10 ∧
    (rows10.map (fun r => r.importance)).Pairwise (fun a b => a ≠ b) ∧
    (∃ c, c ∈ prepare_label_candidates rows10 2 2 2 ∧ c ∈ rows10 ∧
        ∀ s ∈ rows10, s.importance ≤ c.importance) :=
  ⟨rfl, by decide, (sampler_scenario_d rows10 rfl (by decide)).1⟩

/-! ## C10: the command surface with a candidate count below 100 -/

theorem two_le_length_of_two_mem {α : Type} [DecidableEq α] {l : List α}
    {a b : α} (ha : a ∈ l) (hb : b ∈ l) (hab : a ≠ b) : 2 ≤ l.length := by
  have hsub : ({a, b} : Finset α) ⊆ l.toFinset := by
    intro x hx
    rcases Finset.mem_insert.mp hx with rfl | hx
    · exact List.mem_toFinset.mpr ha
    · rw [Finset.mem_singleton] at hx
      subst hx
      exact List.mem_toFinset.mpr hb
  have h2 : ({a, b} : Finset α).card = 2 := by
    rw [Finset.card_insert_of_not_mem (by simpa using hab), Finset.card_singleton]
  calc 2 = ({a, b} : Finset α).card := h2.symm
    _ ≤ l.toFinset.card := Finset.card_le_card hsub
    _ ≤ l.length := l.toFinset_card_le

theorem mid_of_rows10_empty : samplerMid rows10 (1 - 100) = [] := by
  unfold samplerMid ilocTake
  rw [if_neg (by norm_num)]
  have hperm : (samplerSorted rows10).Perm rows10 := sortDescBy_perm _ _
  have hs : (sortAscBy
      (fun r => |r.importance -
        pyMedian ((samplerSorted rows10).map (fun r => r.importance))|)
      (samplerSorted rows10)).length = 10 := by
    rw [(sortAscBy_perm _ _).length_eq, hperm.length_eq]
    rfl
  rw [hs, show ((-((1:Int) - 100))).toNat = 99 by decide]
  rfl

theorem main_prepare_one_rows10 :
    mlMainPrepare 1 rows10 =
      dedupById [] (samplerSorted rows10 ++ samplerSorted rows10) := by
  have hperm : (samplerSorted rows10).Perm rows10 := sortDescBy_perm _ _
  have hL : (samplerSorted rows10).length = 10 := by
    rw [hperm.length_eq]
    rfl
  have htop : pyHead 50 (samplerSorted rows10) = samplerSorted rows10 := by
    unfold pyHead
    exact List.take_of_length_le (by rw [hL]; norm_num)
  have hbot : pyTail 50 (samplerSorted rows10) = samplerSorted rows10 := by
    unfold pyTail
    rw [hL]
    rfl
  show prepare_label_candidates rows10 50 50 (1 - 100) = _
  unfold prepare_label_candidates samplerConcat
  rw [mid_of_rows10_empty, htop, hbot, List.append_nil]

/-- C10: when the command surface is invoked with a candidate count
`n < 100`, the sampler receives `n_mid = n − 100`, which is negative; the
`iloc[:n_mid]` slice with a negative bound keeps all but the `|n − 100|`
rows farthest from the median; the top and bottom counts stay fixed at 50;
and concretely, with `n = 1` over ten distinct rows the emitted table holds
10 unique ids — more than the requested count. -/
theorem candidates_undercount (ncands : Int) (hn : ncands < 100) :
    (∀ df : List SRow, mlMainPrepare ncands df =
        dedupById [] (pyHead 50 (samplerSorted df) ++
          samplerMid df (ncands - 100) ++ pyTail 50 (samplerSorted df))) ∧
    ncands - 100 < 0 ∧
    (∀ (l : List SRow) (k : Nat), 0 < k →
        ilocTake l (-(k : Int)) = l.take (l.length - k)) ∧
    1 < ((mlMainPrepare 1 rows10).map (fun r => r.id)).dedup.length := by
  refine ⟨fun df => rfl, by omega, ?_, ?_⟩
  · intro l k hk
    unfold ilocTake
    rw [if_neg (by omega)]
    congr 1
    omega
  · rw [main_prepare_one_rows10]
    have hperm : (samplerSorted rows10).Perm rows10 := sortDescBy_perm _ _
    have hmem : ∀ r ∈ rows10,
        ∃ c ∈ dedupById []
          (samplerSorted rows10 ++ samplerSorted rows10), c.id = r.id := by
      intro r hr
      exact dedupById_mem_id
        (List.mem_append.mpr (Or.inl (hperm.mem_iff.mpr hr))) (by simp)
    obtain ⟨c0, hc0, hc0id⟩ := hmem ⟨"f0", 0⟩ (by simp [rows10])
    obtain ⟨c1, hc1, hc1id⟩ := hmem ⟨"f1", 1⟩ (by simp [rows10])
    have h0 : "f0" ∈ (dedupById []
        (samplerSorted rows10 ++ samplerSorted rows10)).map (fun r => r.id) :=
      List.mem_map.mpr ⟨c0, hc0, hc0id⟩
    have h1 : "f1" ∈ (dedupById []
        (samplerSorted rows10 ++ samplerSorted rows10)).map (fun r => r.id) :=
      List.mem_map.mpr ⟨c1, hc1, hc1id⟩
    have := two_le_length_of_two_mem (List.mem_dedup.mpr h0)
      (List.mem_dedup.mpr h1) (by decide)
    omega

/-- Concrete instantiation of `candidates_undercount` at `n = 1`. -/
theorem candidates_undercount_witness :
    ((1 : Int) < 100) ∧ ((1 : Int) - 100 < 0) ∧
    (0 < 2 ∧ ilocTake rows10 (-(2 : Int)) = rows10.take (rows10.length - 2)) ∧
    1 < ((mlMainPrepare 1 rows10).map (fun r => r.id)).dedup.length := by
  have h := candidates_undercount 1 (by norm_num)
  exact ⟨by norm_num, h.2.1, ⟨by norm_num, h.2.2.1 rows10 2 (by norm_num)⟩,
    h.2.2.2⟩

/-! ## C6: the verification command (verify.py `main`, lines 43-98) -/

/-- Model of `sorted(list(set_a - set_b))` as far as emptiness and membership are
concerned: the ids of `a` absent from `b`. -/
def idsDiff (a b : List String) : List String :=
  a.filter (fun i => !(b.contains i))

/-- The observable outcome of the auditor: the four difference lists it reports
and the process exit status. -/
structure VerifyResult where
  missing_in_json : List String
  missing_in_csv : List String
  extra_in_json : List String
  extra_in_csv : List String
  exitCode : Nat
  deriving DecidableEq, Repr

/-- verify.py `main`: `ok` is cleared only by the two *missing* lists
(lines 64, 73); the extra lists are reported but never touch `ok`
(lines 82-87); exit status 2 when not ok, 0 otherwise (lines 93-98). -/
def verify_main (in_ids out_json_ids csv_ids : List String) : VerifyResult :=
  let missing_in_json := idsDiff in_ids out_json_ids
  let missing_in_csv := idsDiff in_ids csv_ids
  let extra_in_json := idsDiff out_json_ids in_ids
  let extra_in_csv := idsDiff csv_ids in_ids
  let ok := missing_in_json.isEmpty && missing_in_csv.isEmpty
  ⟨missing_in_json, missing_in_csv, extra_in_json, extra_in_csv,
    if ok then 0 else 2⟩

/-- C6 counterexample: with input ids `["a"]`, ranked-JSON ids `["a","b"]`
and CSV ids `["a"]`, the id sets diverge (the output holds the extra id
`"b"`), yet the verification command exits 0. -/
theorem verify_extra_id_exits_zero :
    (verify_main ["a"] ["a", "b"] ["a"]).exitCode = 0 ∧
    (verify_main ["a"] ["a", "b"] ["a"]).extra_in_json = ["b"] ∧
    ("b" ∈ ["a", "b"] ∧ "b" ∉ ["a"]) := by
  refine ⟨rfl, rfl, by decide⟩

/-- C6 (amended): the verification command exits with status 2 exactly when
some input id is missing from the ranked JSON or from the ranked CSV, and
with status 0 otherwise; extra ids present only in an output never affect
the exit status. -/
theorem verify_exit_characterization (in_ids out_json_ids csv_ids : List String) :
    ((verify_main in_ids out_json_ids csv_ids).exitCode = 2 ↔
      (∃ i ∈ in_ids, i ∉ out_json_ids) ∨ (∃ i ∈ in_ids, i ∉ csv_ids)) ∧
    ((verify_main in_ids out_json_ids csv_ids).exitCode = 0 ↔
      (∀ i ∈ in_ids, i ∈ out_json_ids) ∧ (∀ i ∈ in_ids, i ∈ csv_ids)) := by
  have hm : ∀ x y : List String,
      (idsDiff x y).isEmpty = true ↔ ∀ i ∈ x, i ∈ y := by
    intro x y
    simp [idsDiff, List.isEmpty_iff, List.filter_eq_nil_iff]
  have hcode : (verify_main in_ids out_json_ids csv_ids).exitCode =
      if ((idsDiff in_ids out_json_ids).isEmpty &&
          (idsDiff in_ids csv_ids).isEmpty) then 0 else 2 := rfl
  by_cases h1 : (idsDiff in_ids out_json_ids).isEmpty = true
  · by_cases h2 : (idsDiff in_ids csv_ids).isEmpty = true
    · rw [hcode, if_pos (by rw [h1, h2]; rfl)]
      rw [hm] at h1
      rw [hm] at h2
      constructor
      · constructor
        · intro h
          exact absurd h (by norm_num)
        · rintro (⟨i, hi, hni⟩ | ⟨i, hi, hni⟩)
          · exact absurd (h1 i hi) hni
          · exact absurd (h2 i hi) hni
      · exact ⟨fun _ => ⟨h1, h2⟩, fun _ => rfl⟩
    · rw [hcode, if_neg (by rw [Bool.and_eq_true]; exact fun h => h2 h.2)]
      rw [hm] at h2
      push_neg at h2
      obtain ⟨i, hi, hni⟩ := h2
      constructor
      · exact ⟨fun _ => Or.inr ⟨i, hi, hni⟩, fun _ => rfl⟩
      · constructor
        · intro h
          exact absurd h (by norm_num)
        · rintro ⟨-, hcsv⟩
          exact absurd (hcsv i hi) hni
  · rw [hcode, if_neg (by rw [Bool.and_eq_true]; exact fun h => h1 h.1)]
    rw [hm] at h1
    push_neg at h1
    obtain ⟨i, hi, hni⟩ := h1
    constructor
    · exact ⟨fun _ => Or.inl ⟨i, hi, hni⟩, fun _ => rfl⟩
    · constructor
      · intro h
        exact absurd h (by norm_num)
      · rintro ⟨hjson, -⟩
        exact absurd (hjson i hi) hni

/-! ## C8: training error handling (ml.py `train_and_evaluate`, lines 71-80) -/

/-- One row of the user-supplied labels table; a missing cell is `none`
(pandas NaN). -/
structure LabRow where
  id : Option String
  human_label : Option String
  deriving DecidableEq, Repr

/-- The labels file: whether the `human_label` column exists at all, and
its rows. -/
structure LabelsFile where
  hasHumanLabelCol : Bool
  rows : List LabRow
  deriving DecidableEq, Repr

/-- ml.py line 75: `lab[["id","human_label"]].dropna()`. -/
def labDropna (rows : List LabRow) : List (String × String) :=
  rows.filterMap (fun r =>
    match r.id, r.human_label with
    | some i, some h => some (i, h)
    | _, _ => none)

/-- ml.py line 76: keep only the recognized category values. -/
def labValid (rows : List (String × String)) : List (String × String) :=
  rows.filter (fun p => p.2 == "utility" || p.2 == "core")

/-- ml.py line 77: `df_features.merge(lab, on="id", how="inner")` — each
feature row paired with every label row bearing its id. -/
def mergeLabels (featIds : List String) (lab : List (String × String)) :
    List (String × String) :=
  featIds.flatMap (fun i => lab.filter (fun p => p.1 == i))

/-- What training observably does with the labels before fitting. -/
structure TrainOutcome where
  merged : List (String × String)
  lowDataWarning : Bool
  deriving DecidableEq, Repr

/-- ml.py lines 71-80: missing `human_label` column raises (fatal); rows
with missing or unrecognized categories are filtered; fewer than 20 merged
rows only sets a warning, and training proceeds either way. -/
def train_and_evaluate (featIds : List String) (lab : LabelsFile) :
    Except String TrainOutcome :=
  if lab.hasHumanLabelCol = false then
    Except.error
      "labels.csv must contain a human_label column with values utility or core"
  else
    let merged := mergeLabels featIds (labValid (labDropna lab.rows))
    Except.ok ⟨merged, decide (merged.length < 20)⟩

/-- C8: a labels file without the `human_label` column is fatal; the rows
surviving the pre-merge filter are exactly those with both cells present
and a category in `{"utility","core"}`; and with the column present,
training always returns a result, the low-data warning holding exactly
when fewer than 20 merged rows remain. -/
theorem training_label_error_handling :
    (∀ (featIds : List String) (lab : LabelsFile),
        lab.hasHumanLabelCol = false →
        train_and_evaluate featIds lab = Except.error
          "labels.csv must contain a human_label column with values utility or core") ∧
    (∀ (rows : List LabRow) (p : String × String),
        p ∈ labValid (labDropna rows) ↔
          (∃ r ∈ rows, r.id = some p.1 ∧ r.human_label = some p.2) ∧
          (p.2 = "utility" ∨ p.2 = "core")) ∧
    (∀ (featIds : List String) (lab : LabelsFile),
        lab.hasHumanLabelCol = true →
        ∃ out, train_and_evaluate featIds lab = Except.ok out ∧
          out.merged = mergeLabels featIds (labValid (labDropna lab.rows)) ∧
          (out.lowDataWarning = true ↔ out.merged.length < 20)) := by
  refine ⟨?_, ?_, ?_⟩
  · intro featIds lab h
    unfold train_and_evaluate
    rw [if_pos h]
  · intro rows p
    simp only [labValid, labDropna, List.mem_filter, List.mem_filterMap]
    constructor
    · rintro ⟨⟨r, hr, hfr⟩, hcat⟩
      rcases hid : r.id with - | i
      · rw [hid] at hfr
        exact absurd hfr (by simp)
      rcases hhl : r.human_label with - | h
      · rw [hid, hhl] at hfr
        exact absurd hfr (by simp)
      rw [hid, hhl] at hfr
      simp only [Option.some.injEq] at hfr
      refine ⟨⟨r, hr, ?_, ?_⟩, ?_⟩
      · rw [hid, ← hfr]
      · rw [hhl, ← hfr]
      · simpa using hcat
    · rintro ⟨⟨r, hr, hid, hhl⟩, hcat⟩
      refine ⟨⟨r, hr, ?_⟩, by simpa using hcat⟩
      rw [hid, hhl]
  · intro featIds lab h
    refine ⟨⟨mergeLabels featIds (labValid (labDropna lab.rows)),
      decide ((mergeLabels featIds (labValid (labDropna lab.rows))).length < 20)⟩,
      ?_, rfl, by simp⟩
    unfold train_and_evaluate
    rw [if_neg (by rw [h]; simp)]

/-- Concrete instantiation of `training_label_error_handling`: a labels
file lacking the category column is rejected, and one with the column but
only a single valid row still trains (with the low-data warning set). -/
theorem training_label_error_handling_witness :
    ((LabelsFile.mk false []).hasHumanLabelCol = false ∧
      train_and_evaluate ["n1"] (LabelsFile.mk false []) = Except.error
        "labels.csv must contain a human_label column with values utility or core") ∧
    ((LabelsFile.mk true [⟨some "n1", some "core"⟩]).hasHumanLabelCol = true ∧
      ∃ out, train_and_evaluate ["n1"]
          (LabelsFile.mk true [⟨some "n1", some "core"⟩]) = Except.ok out ∧
        out.merged = mergeLabels ["n1"]
          (labValid (labDropna [⟨some "n1", some "core"⟩])) ∧
        (out.lowDataWarning = true ↔ out.merged.length < 20)) :=
  ⟨⟨rfl, training_label_error_handling.1 ["n1"] (LabelsFile.mk false []) rfl⟩,
    ⟨rfl, training_label_error_handling.2.2 ["n1"]
      (LabelsFile.mk true [⟨some "n1", some "core"⟩]) rfl⟩⟩

/-! ## C5: pass-through fields (rank_func.py lines 81-139, 157-159, 212-214)

Python dicts are modelled as association lists: lookup finds the first
binding, update replaces an existing binding in place or appends a new one
at the end (insertion-order semantics). -/

/-- A JSON-ish field value of an input node or an enriched row. -/
inductive PyVal where
  | vstr (s : String)
  | vint (n : Int)
  | vrat (q : ℚ)
  | vbool (b : Bool)
  | vnone
  deriving DecidableEq, Repr

/-- Model of `d.get(k)`. -/
def dictGet (k : String) (d : List (String × PyVal)) : Option PyVal :=
  (d.find? (fun p => p.1 == k)).map (fun p => p.2)

/-- Model of `d[k] = v`: replace the binding if the key exists, else append. -/
def dictSet (d : List (String × PyVal)) (k : String) (v : PyVal) :
    List (String × PyVal) :=
  if d.any (fun p => p.1 == k) then
    d.map (fun p => if p.1 == k then (k, v) else p)
  else d ++ [(k, v)]

/-- Model of `d.update(pairs)`: apply `dictSet` for each pair in order. -/
def dictUpdate (d : List (String × PyVal)) :
    List (String × PyVal) → List (String × PyVal)
  | [] => d
  | (k, v) :: rest => dictUpdate (dictSet d k v) rest

/-- The extracted feature values of one node (rank_func.py lines 90-117);
the analysis values themselves are irrelevant to field preservation. -/
structure Extracted where
  loc : Nat
  complexity : ℚ
  num_funcs : Nat
  num_params : Nat
  num_calls : Nat
  num_returns : Nat
  num_assigns : Nat
  num_imports : Nat
  doc_len : Nat
  keyword_matches : Nat
  one_liner : Nat
  has_type_annotations : Nat
  code_snippet : String

/-- The key/value pairs written by `row.update({...})`
(rank_func.py lines 121-138). -/
def featurePairs (node : List (String × PyVal)) (f : Extracted) :
    List (String × PyVal) :=
  [("id", (dictGet "id" node).getD PyVal.vnone),
   ("label", (dictGet "label" node).getD (PyVal.vstr "")),
   ("loc", PyVal.vint f.loc),
   ("complexity", PyVal.vrat f.complexity),
   ("num_funcs", PyVal.vint f.num_funcs),
   ("num_params", PyVal.vint f.num_params),
   ("num_calls", PyVal.vint f.num_calls),
   ("num_returns", PyVal.vint f.num_returns),
   ("num_assigns", PyVal.vint f.num_assigns),
   ("num_imports", PyVal.vint f.num_imports),
   ("doc_len", PyVal.vint f.doc_len),
   ("keyword_matches", PyVal.vint f.keyword_matches),
   ("one_liner", PyVal.vint f.one_liner),
   ("has_type_annotations", PyVal.vint f.has_type_annotations),
   ("code_snippet", PyVal.vstr f.code_snippet)]

/-- rank_func.py lines 120-138: `row = dict(original_node)` then
`row.update({...})` — a fresh dict, the original node left untouched. -/
def enrichRow (node : List (String × PyVal)) (f : Extracted) :
    List (String × PyVal) :=
  dictUpdate node (featurePairs node f)

/-- The ten normalized column values for one row. -/
structure NormVals where
  loc_norm : ℚ
  complexity_norm : ℚ
  num_funcs_norm : ℚ
  num_params_norm : ℚ
  num_calls_norm : ℚ
  num_returns_norm : ℚ
  num_assigns_norm : ℚ
  num_imports_norm : ℚ
  doc_len_norm : ℚ
  keyword_matches_norm : ℚ

/-- rank_func.py lines 157-159: the normalizer writes the ten
`*_norm` fields. -/
def addNorms (row : List (String × PyVal)) (n : NormVals) :
    List (String × PyVal) :=
  dictUpdate row
    [("loc_norm", PyVal.vrat n.loc_norm),
     ("complexity_norm", PyVal.vrat n.complexity_norm),
     ("num_funcs_norm", PyVal.vrat n.num_funcs_norm),
     ("num_params_norm", PyVal.vrat n.num_params_norm),
     ("num_calls_norm", PyVal.vrat n.num_calls_norm),
     ("num_returns_norm", PyVal.vrat n.num_returns_norm),
     ("num_assigns_norm", PyVal.vrat n.num_assigns_norm),
     ("num_imports_norm", PyVal.vrat n.num_imports_norm),
     ("doc_len_norm", PyVal.vrat n.doc_len_norm),
     ("keyword_matches_norm", PyVal.vrat n.keyword_matches_norm)]

/-- rank_func.py lines 212-214: the scorer writes `triviality` and
`importance`. -/
def addScores (row : List (String × PyVal)) (t imp : ℚ) :
    List (String × PyVal) :=
  dictUpdate row [("triviality", PyVal.vrat t), ("importance", PyVal.vrat imp)]

/-- Every key the pipeline ever writes into a row. -/
def writtenKeys : List String :=
  ["id", "label", "loc", "complexity", "num_funcs", "num_params",
   "num_calls", "num_returns", "num_assigns", "num_imports", "doc_len",
   "keyword_matches", "one_liner", "has_type_annotations", "code_snippet",
   "loc_norm", "complexity_norm", "num_funcs_norm", "num_params_norm",
   "num_calls_norm", "num_returns_norm", "num_assigns_norm",
   "num_imports_norm", "doc_len_norm", "keyword_matches_norm",
   "triviality", "importance"]

theorem dictGet_dictSet_ne {k k' : String} (h : k ≠ k') (v : PyVal) :
    ∀ d : List (String × PyVal), dictGet k (dictSet d k' v) = dictGet k d := by
  intro d
  unfold dictSet
  by_cases hc : d.any (fun p => p.1 == k') = true
  · rw [if_pos hc]
    clear hc
    induction d with
    | nil => rfl
    | cons p t ih =>
        simp only [List.map_cons]
        by_cases hp : p.1 = k'
        · rw [if_pos (by simpa using hp)]
          unfold dictGet
          rw [List.find?_cons_of_neg _ (by simpa using fun he => h he.symm),
            List.find?_cons_of_neg _ (by
              simp only [beq_iff_eq]
              rw [hp]
              exact fun he => h he.symm)]
          exact ih
        · rw [if_neg (by simpa using hp)]
          unfold dictGet
          by_cases hk : p.1 = k
          · rw [List.find?_cons_of_pos _ (by simpa using hk),
              List.find?_cons_of_pos _ (by simpa using hk)]
          · rw [List.find?_cons_of_neg _ (by simpa using hk),
              List.find?_cons_of_neg _ (by simpa using hk)]
            exact ih
  · rw [if_neg hc]
    clear hc
    induction d with
    | nil =>
        unfold dictGet
        simp only [List.nil_append]
        rw [List.find?_cons_of_neg _ (by simpa using fun he => h he.symm)]
    | cons p t ih =>
        unfold dictGet
        by_cases hk : p.1 = k
        · rw [List.cons_append, List.find?_cons_of_pos _ (by simpa using hk),
            List.find?_cons_of_pos _ (by simpa using hk)]
        · rw [List.cons_append, List.find?_cons_of_neg _ (by simpa using hk),
            List.find?_cons_of_neg _ (by simpa using hk)]
          exact ih

theorem dictGet_dictUpdate_not_mem {k : String} :
    ∀ (pairs : List (String × PyVal)) (d : List (String × PyVal)),
      k ∉ pairs.map Prod.fst →
      dictGet k (dictUpdate d pairs) = dictGet k d := by
  intro pairs
  induction pairs with
  | nil => intro d _; rfl
  | cons p rest ih =>
      intro d hk
      simp only [List.map_cons, List.mem_cons] at hk
      push_neg at hk
      obtain ⟨p1, p2⟩ := p
      rw [dictUpdate, ih _ hk.2, dictGet_dictSet_ne hk.1 p2]

/-- C5: any field of the input node whose key is outside the written
schema survives the whole enrichment chain (feature write, normalizer
write, score write) with its original value; each stage is a function
returning a fresh row list, the input node being left untouched. -/
theorem passthrough_fields_preserved (node : List (String × PyVal))
    (f : Extracted) (n : NormVals) (t imp : ℚ) (k : String)
    (hk : k ∉ writtenKeys) :
    dictGet k (addScores (addNorms (enrichRow node f) n) t imp) =
      dictGet k node := by
  simp only [writtenKeys, List.mem_cons, List.mem_singleton] at hk
  push_neg at hk
  obtain ⟨h1, h2, h3, h4, h5, h6, h7, h8, h9, h10, h11, h12, h13, h14, h15,
    h16, h17, h18, h19, h20, h21, h22, h23, h24, h25, h26, h27, -⟩ := hk
  rw [addScores, dictGet_dictUpdate_not_mem _ _ (by simp [h26, h27])]
  rw [addNorms, dictGet_dictUpdate_not_mem _ _ (by
    simp [h16, h17, h18, h19, h20, h21, h22, h23, h24, h25])]
  rw [enrichRow, dictGet_dictUpdate_not_mem _ _ (by
    simp [featurePairs, h1, h2, h3, h4, h5, h6, h7, h8, h9, h10, h11, h12,
      h13, h14, h15])]

/-- Concrete instantiation of `passthrough_fields_preserved`: an unknown
field `"hidden_meta"` keeps its original value through all three writes. -/
theorem passthrough_fields_preserved_witness :
    "hidden_meta" ∉ writtenKeys ∧
    dictGet "hidden_meta"
      (addScores (addNorms (enrichRow
        [("id", PyVal.vstr "n1"), ("hidden_meta", PyVal.vint 7)]
        ⟨1, 1, 0, 0, 0, 0, 0, 0, 0, 0, 1, 0, "x"⟩)
        ⟨0, 0, 0, 0, 0, 0, 0, 0, 0, 0⟩) (1/2) (1/2)) =
      dictGet "hidden_meta" [("id", PyVal.vstr "n1"), ("hidden_meta", PyVal.vint 7)] :=
  ⟨by decide,
    passthrough_fields_preserved _ _ _ _ _ _ (by decide)⟩

/-! ## C3: the one-line constant-return scenario

Syntax trees (`ast` module output) are modelled as rose trees tagged with
the node kinds the metric extraction inspects; the children of a `boolOp` node
are its operand list. -/

inductive PyKind where
  | module | functionDef | argumentList | ret | constant | call | name
  | ifStmt | forStmt | whileStmt | ifExp | tryStmt | exceptHandler | withStmt
  | boolOp | lambda | assign | augAssign | importStmt | importFrom
  deriving DecidableEq, Repr

mutual
inductive PyNode where
  | node (kind : PyKind) (children : PyForest)
inductive PyForest where
  | nil
  | cons (hd : PyNode) (tl : PyForest)
end

def PyForest.length : PyForest → Nat
  | .nil => 0
  | .cons _ t => 1 + t.length

mutual
/-- Occurrences of kind `t` anywhere in the tree (`ast.walk` tally). -/
def PyNode.countKind (t : PyKind) : PyNode → Nat
  | .node k cs => (if k = t then 1 else 0) + PyForest.countKind t cs
def PyForest.countKind (t : PyKind) : PyForest → Nat
  | .nil => 0
  | .cons x xs => PyNode.countKind t x + PyForest.countKind t xs
end

/-- rank_func.py line 30 `BRANCH_NODES`: If, For, While, IfExp, Try,
ExceptHandler, With. -/
def isBranchKind : PyKind → Bool
  | .ifStmt | .forStmt | .whileStmt | .ifExp | .tryStmt | .exceptHandler
  | .withStmt => true
  | _ => false

mutual
/-- rank_func.py lines 48-53: branch-node count plus, per boolean
expression, `max(0, operand_count - 1)` (Nat subtraction). -/
def PyNode.branchScore : PyNode → Nat
  | .node k cs =>
      (if isBranchKind k then 1 else 0) +
      (if k = PyKind.boolOp then cs.length - 1 else 0) +
      PyForest.branchScore cs
def PyForest.branchScore : PyForest → Nat
  | .nil => 0
  | .cons x xs => PyNode.branchScore x + PyForest.branchScore xs
end

/-- rank_func.py `compute_cyclomatic_complexity`: 0 for an absent tree,
else `max(1, count + 1)`. -/
def compute_cyclomatic_complexity (t : Option PyNode) : Nat :=
  match t with
  | none => 0
  | some tr => max 1 (tr.branchScore + 1)

/-- rank_func.py `count_nodes_of_type`: 0 for an absent tree. -/
def count_nodes_of_type (t : Option PyNode) (k : PyKind) : Nat :=
  match t with
  | none => 0
  | some tr => tr.countKind k

/-- rank_func.py `safe_parse` control flow: the direct `ast.parse` result
if it succeeded, otherwise the result of re-parsing the text wrapped in a
synthetic `def __wrapper__():` body (the parser itself is the Python
standard library, external to this code; its two invocation results are
the inputs here). -/
def safe_parse (direct wrapped : Option PyNode) : Option PyNode :=
  match direct with
  | some t => some t
  | none => wrapped

/-- The tree `ast.parse` yields for
`"def __wrapper__():\n    return <constant>"`: a module holding one
function definition (with its argument list) whose body is a single
return of a constant. -/
def constReturnWrapper : PyNode :=
  .node .module (.cons (.node .functionDef
    (.cons (.node .argumentList .nil)
      (.cons (.node .ret (.cons (.node .constant .nil) .nil)) .nil))) .nil)

/-! Text-level facts for a single non-blank line. -/

theorem splitLinesAux_no_break :
    ∀ (l : List Char) (acc : List Char), l ≠ [] →
      (∀ c ∈ l, isLineBreak c = false) →
      splitLinesAux acc l = [acc.reverse ++ l] := by
  intro l
  induction l with
  | nil => intro acc h; exact absurd rfl h
  | cons c rest ih =>
      intro acc _ hnb
      have hc : isLineBreak c = false := hnb c (by simp)
      have hcr : ¬(c = '\x0d' ∧ rest.head? = some '\n') := by
        rintro ⟨rfl, -⟩
        simp [isLineBreak] at hc
      rw [splitLinesAux, if_neg hcr, if_neg (by simp [hc])]
      by_cases hrest : rest = []
      · subst hrest
        rw [splitLinesAux, if_neg (by simp)]
        simp
      · rw [ih (c :: acc) hrest (fun x hx => hnb x (by simp [hx]))]
        simp

theorem splitLines_single {l : List Char} (hne : l ≠ [])
    (hnb : ∀ c ∈ l, isLineBreak c = false) : splitLines l = [l] := by
  unfold splitLines
  rw [splitLinesAux_no_break l [] hne hnb]
  simp

theorem mem_stripChars {c : Char} {l : List Char} (h : c ∈ stripChars l) :
    c ∈ l := by
  unfold stripChars at h
  rw [List.mem_reverse] at h
  have h2 : c ∈ (l.dropWhile isPyWs).reverse :=
    (List.dropWhile_sublist _).mem h
  rw [List.mem_reverse] at h2
  exact (List.dropWhile_sublist _).mem h2

theorem locOf_single {l : List Char} (hnb : ∀ c ∈ l, isLineBreak c = false)
    (hns : stripChars l ≠ []) : locOf l = 1 := by
  have hne : l ≠ [] := by
    intro he
    rw [he] at hns
    exact hns rfl
  unfold locOf
  rw [splitLines_single hne hnb]
  simp [hns, List.isEmpty_iff]

theorem oneLinerOf_single {l : List Char}
    (hnb : ∀ c ∈ l, isLineBreak c = false) (hns : stripChars l ≠ []) :
    oneLinerOf l = 1 := by
  unfold oneLinerOf
  rw [if_pos ?cond]
  case cond =>
    refine ⟨by rw [locOf_single hnb hns]; norm_num, ?_⟩
    rw [splitLines_single hns (fun c hc => hnb c (mem_stripChars hc))]
    norm_num

/-- C3: for a one-line unit that is a single return of a constant — direct
parse fails, the wrap-in-synthetic-function fallback yields the wrapper
tree — feature extraction gives `loc = 1`, `num_calls = 0`,
`complexity = 1`, `one_liner = 1`, and any row carrying these values
satisfies the guard of the `+0.10` trivial-reinforcement adjustment. -/
theorem one_line_const_return (line : List Char)
    (hnb : ∀ c ∈ line, isLineBreak c = false)
    (hns : stripChars line ≠ []) :
    locOf line = 1 ∧
    count_nodes_of_type (safe_parse none (some constReturnWrapper))
      PyKind.call = 0 ∧
    compute_cyclomatic_complexity
      (safe_parse none (some constReturnWrapper)) = 1 ∧
    oneLinerOf line = 1 ∧
    (∀ r : FeatRow,
      r.one_liner = oneLinerOf line →
      r.num_calls = count_nodes_of_type
        (safe_parse none (some constReturnWrapper)) PyKind.call →
      r.complexity = (compute_cyclomatic_complexity
        (safe_parse none (some constReturnWrapper)) : ℚ) →
      trivialBonus r) := by
  refine ⟨locOf_single hnb hns, rfl, rfl, oneLinerOf_single hnb hns, ?_⟩
  intro r h1 h2 h3
  rw [oneLinerOf_single hnb hns] at h1
  have hcall : count_nodes_of_type (safe_parse none (some constReturnWrapper))
      PyKind.call = 0 := rfl
  have hcyc : compute_cyclomatic_complexity
      (safe_parse none (some constReturnWrapper)) = 1 := rfl
  rw [hcall] at h2
  rw [hcyc] at h3
  refine ⟨by rw [h1]; norm_num, by rw [h2]; norm_num, by rw [h3]; norm_num⟩

/-- Concrete instantiation of `one_line_const_return` on the text
`"return 42"`. -/
theorem one_line_const_return_witness :
    (∀ c ∈ "return 42".toList, isLineBreak c = false) ∧
    stripChars "return 42".toList ≠ [] ∧
    locOf "return 42".toList = 1 ∧
    oneLinerOf "return 42".toList = 1 :=
  ⟨by decide, by decide,
    (one_line_const_return "return 42".toList (by decide) (by decide)).1,
    (one_line_const_return "return 42".toList (by decide) (by decide)).2.2.2.1⟩

end RankPipe
